import Mathlib

/-!
Verification of the line-oriented lexer and token-to-expression reducer of the
not-oblivion-xml repository ("nox" language).

The embedding follows the per-line surface of the source:

* `TokenLine.tryFrom` embeds `impl TryFrom<&str> for TokenLine`
  (src/parsing/lines.rs, lines 25-210): trailing-whitespace trim, the
  leading-whitespace consistency loop, and the character scanning loop with
  composite-operator lookahead, backslash escapes, comments and quote blocks.
* `reduceTokens` / `ExprLine.tryFrom` embed `impl TryFrom<TokenLine> for
  ExprLine` (src/parsing/lines.rs, lines 212-378).
* `Line.renderChars` embeds `impl Display for Line<T>` together with
  `impl Display for Token` (src/core/structs.rs).
* Data and error types are translated from src/core/structs.rs and
  src/core/errors.rs, which are the definitions `parsing/lines.rs` compiles
  against (`Token` with a `Dollar` variant, `Expr` whose `Trait` carries an
  optional argument).

Machine integers: the scanner's `leading_whitespace` counter is a Rust `u8`;
it is modelled as a `Nat` with an explicit `% 256` at the increment (release
mode wrapping semantics).  `Expr::Int` carries a `u16`; it is modelled as a
`Nat` produced by `parseU16`, which only yields values at most 65535.
-/

namespace Nox

/-- Basic math operators (src/core/structs.rs, `ArithmeticOperator`). -/
inductive ArithmeticOperator
  | OpenBracket
  | CloseBracket
  | Div
  | Mult
  | Sub
  | Add
  | Mod
deriving DecidableEq

/-- Two-character relational operators (src/core/structs.rs,
`CompositeRelationalOperator`). -/
inductive CompositeRelationalOperator
  | EqualTo
  | GreaterThanEqual
  | LessThanEqual
  | NotEqual
deriving DecidableEq

/-- Relational operators (src/core/structs.rs, `RelationalOperator`). -/
inductive RelationalOperator
  | EqualTo
  | GreaterThan
  | GreaterThanEqual
  | LessThan
  | LessThanEqual
  | NotEqual
deriving DecidableEq

/-- Embeds `impl Into<RelationalOperator> for &CompositeRelationalOperator`
(src/core/structs.rs). -/
def CompositeRelationalOperator.toRelational :
    CompositeRelationalOperator → RelationalOperator
  | .EqualTo => .EqualTo
  | .GreaterThanEqual => .GreaterThanEqual
  | .LessThanEqual => .LessThanEqual
  | .NotEqual => .NotEqual

/-- A single unit from a line (src/core/structs.rs, `Token`). -/
inductive Token
  | Equals
  | LeftAngle
  | RightAngle
  | Bang
  | Period
  | Colon
  | Dollar
  | Relational (op : CompositeRelationalOperator)
  | Arithmetic (op : ArithmeticOperator)
  | String (s : String)
deriving DecidableEq

/-- A space/quote-separated member after reduction (src/core/structs.rs,
`Expr`).  `Int` carries a Rust `u16`, modelled as `Nat` (the producing parse
only yields values at most 65535). -/
inductive Expr
  | Attribute (key val : String)
  | Trait (src : String) (arg : Option String) (traitName : String)
  | Int (n : Nat)
  | Colon
  | Arithmetic (op : ArithmeticOperator)
  | Relational (op : RelationalOperator)
  | Raw (s : String)
deriving DecidableEq

/-- A single line (src/parsing/lines.rs, `struct Line<T>`). -/
structure Line (T : Type) where
  total_whitespace : Nat
  members : List T
deriving DecidableEq

abbrev TokenLine := Line Token
abbrev ExprLine := Line Expr

/-- Failed conversion from a string into a token line
(src/core/errors.rs, `TokenConversionFailure`). -/
inductive TokenConversionFailure
  | NoTokensPresent
  | InconsistentWhitespace
  | UnexpectedEol (expected : String)
  | UnexpectedLastToken (msg : String)
  | InvalidArgument (msg : String)
deriving DecidableEq

/-- Failed conversion from a token line into an expression line
(src/core/errors.rs, `ExprConversionFailure`). -/
inductive ExprConversionFailure
  | UnexpectedLastToken (t : Token) (expected : String)
  | InvalidToken (t : Token) (msg : String)
  | NotSupported (t : Token)
  | ToDo (t : Token)
deriving DecidableEq

/-- Failed conversion from a string into an expression line
(src/core/errors.rs, `LineConversionFailure`). -/
inductive LineConversionFailure
  | TokenFailure (e : TokenConversionFailure)
  | ExprFailure (e : ExprConversionFailure)
deriving DecidableEq

instance {ε α : Type} [DecidableEq ε] [DecidableEq α] : DecidableEq (Except ε α) := by
  intro a b
  cases a <;> cases b
  case error.error e f => exact decidable_of_iff (e = f) (by simp)
  case ok.ok x y => exact decidable_of_iff (x = y) (by simp)
  all_goals exact isFalse (by intro h; cases h)

/-- Models Rust's `char::is_whitespace` (they agree on all ASCII input, the
only whitespace the repository's format uses). -/
def isWs (c : Char) : Bool := c.isWhitespace

/-- Models `str::trim_end`: drop the trailing whitespace run. -/
def trimEndList (cs : List Char) : List Char :=
  (cs.reverse.dropWhile isWs).reverse

/-- Character dispatch table of the scanning loop's `match ch` in
`TokenLine::try_from` (src/parsing/lines.rs, lines 137-193), with the
char constants of `char_literals`. -/
inductive CharClass
  | backslash
  | comment
  | colon
  | period
  | closeBracket
  | openBracket
  | div
  | mult
  | sub
  | add
  | mod
  | dollar
  | equalsSign
  | leftAngle
  | rightAngle
  | bang
  | quote
  | other
deriving DecidableEq

/-- Classifies a character exactly as the arms of `match ch` in the scanner
loop (src/parsing/lines.rs): every character that heads none of the arms is
`other` and is appended to the current buffer. -/
def classify (c : Char) : CharClass :=
  if c = '\\' then .backslash
  else if c = '#' then .comment
  else if c = ':' then .colon
  else if c = '.' then .period
  else if c = ']' then .closeBracket
  else if c = '[' then .openBracket
  else if c = '/' then .div
  else if c = '*' then .mult
  else if c = '-' then .sub
  else if c = '+' then .add
  else if c = '%' then .mod
  else if c = '$' then .dollar
  else if c = '=' then .equalsSign
  else if c = '<' then .leftAngle
  else if c = '>' then .rightAngle
  else if c = '!' then .bang
  else if c = '\'' then .quote
  else if c = '"' then .quote
  else .other

/-- Embeds the `flush_buf!` macro (src/parsing/lines.rs, lines 79-95):
push the buffer as a `String` token when it is non-empty. -/
def flushBuf (buf : List Char) (acc : List Token) : List Token :=
  if buf = [] then acc else acc ++ [Token.String (String.mk buf)]

/--
Embeds the scanner loop `'outer: loop` of `TokenLine::try_from`
(src/parsing/lines.rs, lines 97-197), including the trailing `flush_buf!()`.

State: the first argument is `some q` while the quote-block loop
(lines 179-190) is running with delimiter `q`, `none` otherwise; the `Bool`
is `true` when the iteration starts at the top of the loop (where the
whitespace-delimiter check of line 132 runs) and `false` for the re-dispatch
that follows consumption of a single whitespace character (the `match ch`
runs again without a whitespace check); then the remaining characters, the
current buffer `buf`, and the tokens pushed so far.
-/
def scanGo : Option Char → Bool → List Char → List Char → List Token →
    Except TokenConversionFailure (List Token)
  | some _, _, [], _, _ => .error (.UnexpectedEol "closing quote")
  | some q, _, c :: r, buf, acc =>
    if c = q then
      scanGo none true r buf acc
    else if c = '\\' then
      match hr : r with
      | [] => .error (.UnexpectedEol "char after backslash")
      | d :: r2 => scanGo (some q) true r2 (buf ++ [d]) acc
    else
      scanGo (some q) true r (buf ++ [c]) acc
  | none, _, [], buf, acc => .ok (flushBuf buf acc)
  | none, skip, c :: r, buf, acc =>
    if skip && isWs c then
      scanGo none false r [] (flushBuf buf acc)
    else
      match classify c with
      | .backslash =>
        match hr : r with
        | [] => .error (.UnexpectedEol "char after backslash")
        | d :: r2 => scanGo none true r2 (buf ++ [d]) acc
      | .comment => .ok (flushBuf buf acc)
      | .colon => scanGo none true r [] (flushBuf buf acc ++ [Token.Colon])
      | .period => scanGo none true r [] (flushBuf buf acc ++ [Token.Period])
      | .closeBracket =>
        scanGo none true r [] (flushBuf buf acc ++ [Token.Arithmetic .CloseBracket])
      | .openBracket =>
        scanGo none true r [] (flushBuf buf acc ++ [Token.Arithmetic .OpenBracket])
      | .div => scanGo none true r [] (flushBuf buf acc ++ [Token.Arithmetic .Div])
      | .mult => scanGo none true r [] (flushBuf buf acc ++ [Token.Arithmetic .Mult])
      | .sub => scanGo none true r [] (flushBuf buf acc ++ [Token.Arithmetic .Sub])
      | .add => scanGo none true r [] (flushBuf buf acc ++ [Token.Arithmetic .Add])
      | .mod => scanGo none true r [] (flushBuf buf acc ++ [Token.Arithmetic .Mod])
      | .dollar => scanGo none true r [] (flushBuf buf acc ++ [Token.Dollar])
      | .equalsSign =>
        match hr : r with
        | [] => .ok (flushBuf buf acc ++ [Token.Equals])
        | nc :: r2 =>
          if nc = '=' then
            scanGo none true r2 [] (flushBuf buf acc ++ [Token.Relational .EqualTo])
          else if nc = '\\' then
            scanGo none true r2 ['\\'] (flushBuf buf acc ++ [Token.Equals])
          else
            scanGo none true r [] (flushBuf buf acc ++ [Token.Equals])
      | .leftAngle =>
        match hr : r with
        | [] => .ok (flushBuf buf acc ++ [Token.LeftAngle])
        | nc :: r2 =>
          if nc = '=' then
            scanGo none true r2 [] (flushBuf buf acc ++ [Token.Relational .LessThanEqual])
          else if nc = '\\' then
            scanGo none true r2 ['\\'] (flushBuf buf acc ++ [Token.LeftAngle])
          else
            scanGo none true r [] (flushBuf buf acc ++ [Token.LeftAngle])
      | .rightAngle =>
        match hr : r with
        | [] => .ok (flushBuf buf acc ++ [Token.RightAngle])
        | nc :: r2 =>
          if nc = '=' then
            scanGo none true r2 [] (flushBuf buf acc ++ [Token.Relational .GreaterThanEqual])
          else if nc = '\\' then
            scanGo none true r2 ['\\'] (flushBuf buf acc ++ [Token.RightAngle])
          else
            scanGo none true r [] (flushBuf buf acc ++ [Token.RightAngle])
      | .bang =>
        match hr : r with
        | [] => .ok (flushBuf buf acc ++ [Token.Bang])
        | nc :: r2 =>
          if nc = '=' then
            scanGo none true r2 [] (flushBuf buf acc ++ [Token.Relational .NotEqual])
          else if nc = '\\' then
            scanGo none true r2 ['\\'] (flushBuf buf acc ++ [Token.Bang])
          else
            scanGo none true r [] (flushBuf buf acc ++ [Token.Bang])
      | .quote => scanGo (some c) true r buf acc
      | .other => scanGo none true r (buf ++ [c]) acc
termination_by _ _ cs _ _ => cs.length
decreasing_by
  all_goals simp_wf
  all_goals try subst_vars
  all_goals try simp only [List.length_cons]
  all_goals omega

/-- Embeds the leading-whitespace loop of `TokenLine::try_from`
(src/parsing/lines.rs, lines 56-65).  The `u8` counter wraps, hence the
explicit `% 256`.  Returns the counter and the remaining characters starting
at the first non-whitespace character. -/
def wsLoop (wsChar : Char) : List Char → Nat →
    Except TokenConversionFailure (Nat × List Char)
  | [], _ => .error .NoTokensPresent
  | c :: r, count =>
    if isWs c then
      if c ≠ wsChar then .error .InconsistentWhitespace
      else wsLoop wsChar r ((count + 1) % 256)
    else .ok (count, c :: r)

/-- Embeds `impl TryFrom<&str> for TokenLine` (src/parsing/lines.rs,
lines 25-210) after the trailing-whitespace trim: the leading-whitespace
loop seeded with the first character, the scanning loop, and the final
empty-token-list check. -/
def scanTrimmed (cs : List Char) : Except TokenConversionFailure TokenLine :=
  match cs with
  | [] => .error .NoTokensPresent
  | c :: rest =>
    match wsLoop c (c :: rest) 0 with
    | .error e => .error e
    | .ok (lead, remaining) =>
      match scanGo none true remaining [] [] with
      | .error e => .error e
      | .ok [] => .error .NoTokensPresent
      | .ok (t :: ts) => .ok ⟨lead, t :: ts⟩

/-- Embeds `impl TryFrom<&str> for TokenLine` (src/parsing/lines.rs,
lines 25-210) at the character-list level. -/
def scanLine (cs : List Char) : Except TokenConversionFailure TokenLine :=
  scanTrimmed (trimEndList cs)

/-- Embeds `impl TryFrom<&str> for TokenLine` on a Lean `String`. -/
def TokenLine.tryFrom (value : String) : Except TokenConversionFailure TokenLine :=
  scanLine value.data

/-- Value of a list of decimal digit characters. -/
def digitsVal (ds : List Char) : Nat :=
  ds.foldl (fun a c => a * 10 + (c.toNat - '0'.toNat)) 0

/-- Strips the optional leading plus sign accepted by Rust's unsigned
integer parser. -/
def stripPlusSign : List Char → List Char
  | '+' :: rest => rest
  | l => l

/-- Digit-run part of Rust's `u16::from_str`: one or more ASCII digits
whose value fits in 16 bits; anything else is a parse error (`none`). -/
def parseDigitsU16 (ds : List Char) : Option Nat :=
  if ds = [] then none
  else if ds.all Char.isDigit then
    if digitsVal ds ≤ 65535 then some (digitsVal ds) else none
  else none

/-- Models Rust's `str::parse::<u16>()` (`u16::from_str`): an optional
leading plus sign, then one or more ASCII digits whose value fits in 16
bits. -/
def parseU16 (s : String) : Option Nat :=
  parseDigitsU16 (stripPlusSign s.data)

/-- The singleton reduction of a `String` token (src/parsing/lines.rs,
lines 290-304): emit `Int` when the payload parses as a `u16`, else `Raw`. -/
def stringExpr (s : String) : Expr :=
  match parseU16 s with
  | some n => .Int n
  | none => .Raw s

/-- Embeds the `'expr_loop` of `impl TryFrom<TokenLine> for ExprLine`
(src/parsing/lines.rs, lines 236-374) as a recursion over the token list. -/
def reduceTokens : List Token → Except ExprConversionFailure (List Expr)
  | [] => .ok []
  | Token.Equals :: _ =>
    .error (.InvalidToken Token.Equals "Incorrect token to start expression")
  | Token.Period :: _ =>
    .error (.InvalidToken Token.Period "Incorrect token to start expression")
  | Token.Bang :: _ => .error (.ToDo Token.Bang)
  | Token.Colon :: rest => (reduceTokens rest).map (Expr.Colon :: ·)
  | Token.Relational op :: rest =>
    (reduceTokens rest).map (Expr.Relational op.toRelational :: ·)
  | Token.Arithmetic op :: rest =>
    (reduceTokens rest).map (Expr.Arithmetic op :: ·)
  | Token.LeftAngle :: rest =>
    (reduceTokens rest).map (Expr.Relational .LessThan :: ·)
  | Token.RightAngle :: rest =>
    (reduceTokens rest).map (Expr.Relational .GreaterThan :: ·)
  | Token.String s :: rest =>
    match rest with
    | Token.Equals :: rest2 =>
      match rest2 with
      | Token.String v :: rest3 =>
        (reduceTokens rest3).map (Expr.Attribute s v :: ·)
      | t :: _ => .error (.InvalidToken t "expected string after equals sign")
      | [] => .error (.UnexpectedLastToken (Token.String s) "string")
    | [] => .ok [stringExpr s]
    | t :: rest2 => (reduceTokens (t :: rest2)).map (stringExpr s :: ·)
  | Token.Dollar :: rest =>
    match rest with
    | Token.String src :: r2 =>
      match r2 with
      | Token.LeftAngle :: r3 =>
        match r3 with
        | Token.String arg :: r4 =>
          match r4 with
          | Token.RightAngle :: r5 =>
            match r5 with
            | Token.Period :: r6 =>
              match r6 with
              | Token.String tr :: r7 =>
                (reduceTokens r7).map (Expr.Trait src (some arg) tr :: ·)
              | t :: _ => .error (.InvalidToken t "expected a string")
              | [] => .error (.UnexpectedLastToken Token.Dollar "string")
            | t :: _ => .error (.InvalidToken t "expected a period")
            | [] => .error (.InvalidToken Token.Dollar "period")
          | t :: _ => .error (.InvalidToken t "expected a right angle bracket")
          | [] => .error (.UnexpectedLastToken Token.Dollar "right angle bracket")
        | Token.RightAngle :: r4 =>
          match r4 with
          | Token.Period :: r5 =>
            match r5 with
            | Token.String tr :: r6 =>
              (reduceTokens r6).map (Expr.Trait src (some "") tr :: ·)
            | t :: _ => .error (.InvalidToken t "expected a string")
            | [] => .error (.UnexpectedLastToken Token.Dollar "string")
          | t :: _ => .error (.InvalidToken t "expected a period")
          | [] => .error (.UnexpectedLastToken Token.Dollar "period")
        | t :: _ =>
          .error (.InvalidToken t "expected a string or right angle bracket")
        | [] =>
          .error (.UnexpectedLastToken Token.Dollar "string or right angle bracket")
      | Token.Period :: r3 =>
        match r3 with
        | Token.String tr :: r4 =>
          (reduceTokens r4).map (Expr.Trait src none tr :: ·)
        | t :: _ => .error (.InvalidToken t "expected a string")
        | [] => .error (.UnexpectedLastToken Token.Dollar "string")
      | t :: _ => .error (.InvalidToken t "expected a period")
      | [] => .error (.UnexpectedLastToken Token.Dollar "period")
    | t :: _ => .error (.InvalidToken t "expected a string")
    | [] => .error (.UnexpectedLastToken Token.Dollar "string literal")

/-- Embeds `impl TryFrom<TokenLine> for ExprLine` (src/parsing/lines.rs,
lines 212-378): the leading-whitespace count is copied, the members are
reduced. -/
def ExprLine.tryFrom (l : TokenLine) : Except ExprConversionFailure ExprLine :=
  (reduceTokens l.members).map (fun es => ⟨l.total_whitespace, es⟩)

/-- Embeds `impl TryFrom<&str> for ExprLine` (src/parsing/lines.rs,
lines 380-396). -/
def ExprLine.tryFromStr (value : String) : Except LineConversionFailure ExprLine :=
  match TokenLine.tryFrom value with
  | .error e => .error (.TokenFailure e)
  | .ok l =>
    match ExprLine.tryFrom l with
    | .error e => .error (.ExprFailure e)
    | .ok r => .ok r

/-- Textual form of an arithmetic operator
(src/core/structs.rs, `impl Display for ArithmeticOperator`). -/
def ArithmeticOperator.chars : ArithmeticOperator → List Char
  | .OpenBracket => ['[']
  | .CloseBracket => [']']
  | .Div => ['/']
  | .Mult => ['*']
  | .Sub => ['-']
  | .Add => ['+']
  | .Mod => ['%']

/-- Textual form of a relational operator
(src/core/structs.rs, `impl Display for RelationalOperator`). -/
def RelationalOperator.chars : RelationalOperator → List Char
  | .EqualTo => ['=', '=']
  | .GreaterThan => ['>']
  | .GreaterThanEqual => ['>', '=']
  | .LessThan => ['<']
  | .LessThanEqual => ['<', '=']
  | .NotEqual => ['!', '=']

/-- Textual form of a token (src/core/structs.rs, `impl Display for Token`);
note that a `String` token prints its payload raw, with no quoting. -/
def Token.chars : Token → List Char
  | .Equals => ['=']
  | .LeftAngle => ['<']
  | .RightAngle => ['>']
  | .Bang => ['!']
  | .Period => ['.']
  | .Colon => [':']
  | .Dollar => ['$']
  | .Relational r => r.toRelational.chars
  | .Arithmetic a => a.chars
  | .String s => s.data

/-- Join textual member forms with single spaces, as the member loop of
`impl Display for Line<T>` does (src/parsing/lines.rs, lines 398-412). -/
def joinSpace : List (List Char) → List Char
  | [] => []
  | [x] => x
  | x :: y :: xs => x ++ ' ' :: joinSpace (y :: xs)

/-- Embeds `impl Display for Line<T>` at `T = Token`
(src/parsing/lines.rs, lines 398-412): `total_whitespace` spaces, then the
members' textual forms separated by single spaces. -/
def Line.renderChars (l : TokenLine) : List Char :=
  List.replicate l.total_whitespace ' ' ++ joinSpace (l.members.map Token.chars)

/-- String form of `Line.renderChars`. -/
def Line.render (l : TokenLine) : String :=
  String.mk l.renderChars

/-- A character that heads no arm of the scanner's `match ch` and is not
whitespace: the scanner always appends it to the current buffer. -/
def isPlain (c : Char) : Bool :=
  !(isWs c) && decide (classify c = CharClass.other)

/-- A token whose textual form re-scans as itself when delimited by spaces:
every token except a `String` qualifies unconditionally; a `String` token
qualifies when its payload is non-empty and all its characters are plain. -/
def GoodTok : Token → Prop
  | .String s => s.data ≠ [] ∧ ∀ c ∈ s.data, isPlain c = true
  | _ => True

instance (t : Token) : Decidable (GoodTok t) := by
  cases t <;> unfold GoodTok <;> infer_instance

/-- A token line on which rendering is exactly inverted by re-scanning:
the leading-whitespace count fits the scanner's 8-bit counter, the member
list is non-empty (the scanner never produces an empty one), and every
member is `GoodTok`. -/
def goodLine (l : TokenLine) : Prop :=
  l.total_whitespace ≤ 255 ∧ l.members ≠ [] ∧ ∀ t ∈ l.members, GoodTok t

instance (l : TokenLine) : Decidable (goodLine l) := by
  unfold goodLine
  infer_instance

/-- Length of the leading whitespace run of a character list. -/
def leadingWsRun (cs : List Char) : Nat :=
  (cs.takeWhile isWs).length

/-- Lexer errors of the whole-file token surface
(src/core/lexing/token.rs, `TokenError`). -/
inductive TokenError
  | UnterminatedStringLiteral (s : String)
  | InvalidChar (c : Char)
  | InconsistentLeadingWhitespaceChars
  | InconsistentLeadingWhitespaceCount
deriving DecidableEq

/-- Modelled from the spec: the string-literal collection of the
`parse_chars` lexer, whose definition is absent from src/ (src/lib.rs calls
`lexing::parse_chars` and src/core/lexing/token.rs declares its `Token` and
`TokenError` types, but no definition exists).  Spec 4.1 rule 3: content is
collected until a matching delimiter, a backslash escapes the next
character (including the quote), and reaching end-of-input before the
matching delimiter fails with `UnterminatedStringLiteral` carrying the
partial content.  The first list argument is the input after the opening
quote, the second the content collected so far. -/
def collectStringLiteral (q : Char) : List Char → List Char →
    Except TokenError (String × List Char)
  | [], content => .error (.UnterminatedStringLiteral (String.mk content))
  | c :: r, content =>
    if c = q then .ok (String.mk content, r)
    else if c = '\\' then
      match r with
      | [] => .error (.UnterminatedStringLiteral (String.mk content))
      | d :: r2 => collectStringLiteral q r2 (content ++ [d])
    else collectStringLiteral q r (content ++ [c])

/-- Modelled from the spec: whether the characters after an opening quote
contain a matching unescaped closing delimiter `q`. -/
def literalCloses (q : Char) : List Char → Bool
  | [] => false
  | c :: r =>
    if c = q then true
    else if c = '\\' then
      match r with
      | [] => false
      | _ :: r2 => literalCloses q r2
    else literalCloses q r

/-- Modelled from the spec: the escape-decoded partial literal content read
before end-of-input, for an input with no matching closing delimiter. -/
def literalPartial (q : Char) : List Char → List Char
  | [] => []
  | c :: r =>
    if c = q then []
    else if c = '\\' then
      match r with
      | [] => []
      | d :: r2 => d :: literalPartial q r2
    else c :: literalPartial q r

end Nox

namespace Nox

set_option maxRecDepth 4000

theorem flushBuf_nil (acc : List Token) : flushBuf [] acc = acc := by
  simp [flushBuf]

theorem flushBuf_ne_nil {buf : List Char} (h : buf ≠ []) (acc : List Token) :
    flushBuf buf acc = acc ++ [Token.String (String.mk buf)] := by
  simp [flushBuf, h]

theorem stringMk_data (s : String) : String.mk s.data = s := by
  cases s
  rfl

theorem isPlain_not_ws {c : Char} (h : isPlain c = true) : isWs c = false := by
  simp [isPlain] at h
  exact h.1

theorem isPlain_classify {c : Char} (h : isPlain c = true) :
    classify c = CharClass.other := by
  simp [isPlain] at h
  exact h.2

theorem parseU16_le {s : String} {n : Nat} (h : parseU16 s = some n) : n ≤ 65535 := by
  unfold parseU16 parseDigitsU16 at h
  split at h
  · cases h
  · split at h
    · split at h
      · rename_i hle
        cases h
        exact hle
      · cases h
    · cases h

/-- C9: reducing a token line to an expression line leaves the
leading-whitespace count unchanged: the returned line's `total_whitespace`
equals the input's, reduction modifying only the member list. -/
theorem expr_reduction_preserves_whitespace (l : TokenLine) (r : ExprLine)
    (h : ExprLine.tryFrom l = .ok r) : r.total_whitespace = l.total_whitespace := by
  unfold ExprLine.tryFrom at h
  cases hr : reduceTokens l.members with
  | error e => rw [hr] at h; simp [Except.map] at h
  | ok es =>
    rw [hr] at h
    simp only [Except.map] at h
    cases h
    rfl

theorem expr_reduction_preserves_whitespace_witness :
    (⟨3, [Expr.Colon]⟩ : ExprLine).total_whitespace =
      (⟨3, [Token.Colon]⟩ : TokenLine).total_whitespace :=
  expr_reduction_preserves_whitespace ⟨3, [Token.Colon]⟩ ⟨3, [Expr.Colon]⟩ (by decide)

/-- C1 (counterexample): with the equals-sign token last, the reducer fails
with the unexpected-last-token error carrying the key token and the
expected-item text "string"; it does not carry a "token after attribute
operator" message as the claim states. -/
theorem attribute_trailing_equals_counterexample :
    reduceTokens [Token.String "k", Token.Equals] =
      .error (.UnexpectedLastToken (Token.String "k") "string") ∧
    reduceTokens [Token.String "k", Token.Equals] ≠
      .error (.UnexpectedLastToken (Token.String "k") "token after attribute operator") := by
  decide

/-- C1 (amended): a string token immediately followed by the equals-sign
token and a string token folds to the single Attribute expression; if the
equals-sign token is the last token the reduction fails with the
unexpected-last-token error carrying the key token and the expected-item
text "string"; if the token after the equals sign is any other kind of
token it fails with the invalid-token error "expected string after equals
sign". -/
theorem attribute_fold_spec (k v : String) (rest : List Token) :
    reduceTokens (Token.String k :: Token.Equals :: Token.String v :: rest) =
      (reduceTokens rest).map (Expr.Attribute k v :: ·) ∧
    reduceTokens [Token.String k, Token.Equals] =
      .error (.UnexpectedLastToken (Token.String k) "string") ∧
    ∀ t rest2, (∀ s, t ≠ Token.String s) →
      reduceTokens (Token.String k :: Token.Equals :: t :: rest2) =
        .error (.InvalidToken t "expected string after equals sign") := by
  refine ⟨by simp [reduceTokens], by simp [reduceTokens], ?_⟩
  intro t rest2 ht
  cases t with
  | String s => exact absurd rfl (ht s)
  | Equals => simp [reduceTokens]
  | LeftAngle => simp [reduceTokens]
  | RightAngle => simp [reduceTokens]
  | Bang => simp [reduceTokens]
  | Period => simp [reduceTokens]
  | Colon => simp [reduceTokens]
  | Dollar => simp [reduceTokens]
  | Relational op => simp [reduceTokens]
  | Arithmetic op => simp [reduceTokens]

theorem attribute_fold_spec_witness :
    reduceTokens [Token.String "k", Token.Equals, Token.Colon] =
      .error (.InvalidToken Token.Colon "expected string after equals sign") :=
  (attribute_fold_spec "k" "v" []).2.2 Token.Colon [] (by intro s; simp)

/-- C7: a string token reduced as a singleton (last token, or followed by a
token other than the equals sign) yields `Int n` when its text parses as a
non-negative 16-bit integer (hence at most 65535) and `Raw` with the text
unchanged otherwise. -/
theorem singleton_string_reduction (s : String) (ws : Nat) :
    (∀ n, parseU16 s = some n →
      ExprLine.tryFrom ⟨ws, [Token.String s]⟩ = .ok ⟨ws, [Expr.Int n]⟩ ∧ n ≤ 65535) ∧
    (parseU16 s = none →
      ExprLine.tryFrom ⟨ws, [Token.String s]⟩ = .ok ⟨ws, [Expr.Raw s]⟩) ∧
    ∀ t rest, t ≠ Token.Equals →
      reduceTokens (Token.String s :: t :: rest) =
        (reduceTokens (t :: rest)).map (stringExpr s :: ·) := by
  refine ⟨?_, ?_, ?_⟩
  · intro n hn
    exact ⟨by simp [ExprLine.tryFrom, reduceTokens, stringExpr, hn, Except.map],
      parseU16_le hn⟩
  · intro h0
    simp [ExprLine.tryFrom, reduceTokens, stringExpr, h0, Except.map]
  · intro t rest ht
    cases t with
    | Equals => exact absurd rfl ht
    | String s2 => simp [reduceTokens]
    | LeftAngle => simp [reduceTokens]
    | RightAngle => simp [reduceTokens]
    | Bang => simp [reduceTokens]
    | Period => simp [reduceTokens]
    | Colon => simp [reduceTokens]
    | Dollar => simp [reduceTokens]
    | Relational op => simp [reduceTokens]
    | Arithmetic op => simp [reduceTokens]

theorem singleton_string_reduction_witness :
    ExprLine.tryFrom ⟨0, [Token.String "42"]⟩ = .ok ⟨0, [Expr.Int 42]⟩ ∧
      (42 : Nat) ≤ 65535 :=
  (singleton_string_reduction "42" 0).1 42 (by decide)

end Nox

namespace Nox

theorem scanGo_some_cons (q : Char) (b : Bool) (c : Char) (r buf : List Char)
    (acc : List Token) :
    scanGo (some q) b (c :: r) buf acc =
      if c = q then scanGo none true r buf acc
      else if c = '\\' then
        match r with
        | [] => .error (.UnexpectedEol "char after backslash")
        | d :: r2 => scanGo (some q) true r2 (buf ++ [d]) acc
      else scanGo (some q) true r (buf ++ [c]) acc := by
  cases r <;> simp only [scanGo.eq_2, scanGo.eq_3]

theorem scanGo_none_cons (b : Bool) (c : Char) (r buf : List Char)
    (acc : List Token) :
    scanGo none b (c :: r) buf acc =
      if b && isWs c then scanGo none false r [] (flushBuf buf acc)
      else
        match classify c with
        | .backslash =>
          match r with
          | [] => .error (.UnexpectedEol "char after backslash")
          | d :: r2 => scanGo none true r2 (buf ++ [d]) acc
        | .comment => .ok (flushBuf buf acc)
        | .colon => scanGo none true r [] (flushBuf buf acc ++ [Token.Colon])
        | .period => scanGo none true r [] (flushBuf buf acc ++ [Token.Period])
        | .closeBracket =>
          scanGo none true r [] (flushBuf buf acc ++ [Token.Arithmetic .CloseBracket])
        | .openBracket =>
          scanGo none true r [] (flushBuf buf acc ++ [Token.Arithmetic .OpenBracket])
        | .div => scanGo none true r [] (flushBuf buf acc ++ [Token.Arithmetic .Div])
        | .mult => scanGo none true r [] (flushBuf buf acc ++ [Token.Arithmetic .Mult])
        | .sub => scanGo none true r [] (flushBuf buf acc ++ [Token.Arithmetic .Sub])
        | .add => scanGo none true r [] (flushBuf buf acc ++ [Token.Arithmetic .Add])
        | .mod => scanGo none true r [] (flushBuf buf acc ++ [Token.Arithmetic .Mod])
        | .dollar => scanGo none true r [] (flushBuf buf acc ++ [Token.Dollar])
        | .equalsSign =>
          match r with
          | [] => .ok (flushBuf buf acc ++ [Token.Equals])
          | nc :: r2 =>
            if nc = '=' then
              scanGo none true r2 [] (flushBuf buf acc ++ [Token.Relational .EqualTo])
            else if nc = '\\' then
              scanGo none true r2 ['\\'] (flushBuf buf acc ++ [Token.Equals])
            else scanGo none true (nc :: r2) [] (flushBuf buf acc ++ [Token.Equals])
        | .leftAngle =>
          match r with
          | [] => .ok (flushBuf buf acc ++ [Token.LeftAngle])
          | nc :: r2 =>
            if nc = '=' then
              scanGo none true r2 [] (flushBuf buf acc ++ [Token.Relational .LessThanEqual])
            else if nc = '\\' then
              scanGo none true r2 ['\\'] (flushBuf buf acc ++ [Token.LeftAngle])
            else scanGo none true (nc :: r2) [] (flushBuf buf acc ++ [Token.LeftAngle])
        | .rightAngle =>
          match r with
          | [] => .ok (flushBuf buf acc ++ [Token.RightAngle])
          | nc :: r2 =>
            if nc = '=' then
              scanGo none true r2 [] (flushBuf buf acc ++ [Token.Relational .GreaterThanEqual])
            else if nc = '\\' then
              scanGo none true r2 ['\\'] (flushBuf buf acc ++ [Token.RightAngle])
            else scanGo none true (nc :: r2) [] (flushBuf buf acc ++ [Token.RightAngle])
        | .bang =>
          match r with
          | [] => .ok (flushBuf buf acc ++ [Token.Bang])
          | nc :: r2 =>
            if nc = '=' then
              scanGo none true r2 [] (flushBuf buf acc ++ [Token.Relational .NotEqual])
            else if nc = '\\' then
              scanGo none true r2 ['\\'] (flushBuf buf acc ++ [Token.Bang])
            else scanGo none true (nc :: r2) [] (flushBuf buf acc ++ [Token.Bang])
        | .quote => scanGo (some c) true r buf acc
        | .other => scanGo none true r (buf ++ [c]) acc := by
  cases r with
  | nil => rw [scanGo.eq_5]
  | cons d r2 => rw [scanGo.eq_6]

theorem scanGo_skip {b : Bool} {c : Char} {r buf : List Char} {acc : List Token}
    (h : isWs c = false) :
    scanGo none b (c :: r) buf acc = scanGo none true (c :: r) buf acc := by
  rw [scanGo_none_cons, scanGo_none_cons, h]
  simp

theorem scan_plain_run : ∀ (cs : List Char), (∀ c ∈ cs, isPlain c = true) →
    ∀ (tl buf : List Char) (acc : List Token),
    scanGo none true (cs ++ tl) buf acc = scanGo none true tl (buf ++ cs) acc := by
  intro cs
  induction cs with
  | nil => intro _ tl buf acc; simp
  | cons c cs2 ih =>
    intro h tl buf acc
    have hc := h c (List.mem_cons_self c cs2)
    have h1 := isPlain_not_ws hc
    have h2 := isPlain_classify hc
    have step : scanGo none true (c :: (cs2 ++ tl)) buf acc =
        scanGo none true (cs2 ++ tl) (buf ++ [c]) acc := by
      rw [scanGo_none_cons, h1, h2]
      simp
    rw [List.cons_append, step,
      ih (fun x hx => h x (List.mem_cons_of_mem c hx)) tl (buf ++ [c]) acc,
      List.append_assoc]
    rfl

theorem scan_quote_run (q : Char) : ∀ (v : List Char),
    (∀ x ∈ v, x ≠ q ∧ x ≠ '\\') → ∀ (b : Bool) (tl buf : List Char) (acc : List Token),
    scanGo (some q) b (v ++ q :: tl) buf acc = scanGo none true tl (buf ++ v) acc := by
  intro v
  induction v with
  | nil =>
    intro _ b tl buf acc
    rw [List.nil_append, scanGo_some_cons]
    simp
  | cons x v2 ih =>
    intro h b tl buf acc
    obtain ⟨hx1, hx2⟩ := h x (List.mem_cons_self x v2)
    have step : scanGo (some q) b (x :: (v2 ++ q :: tl)) buf acc =
        scanGo (some q) true (v2 ++ q :: tl) (buf ++ [x]) acc := by
      rw [scanGo_some_cons]
      simp [hx1, hx2]
    rw [List.cons_append, step,
      ih (fun y hy => h y (List.mem_cons_of_mem x hy)) true tl (buf ++ [x]) acc,
      List.append_assoc]
    rfl

/-- C2 (code evaluation at the failing input): after a left angle, a
backslash lookahead does not start the next scanning iteration; the scanner
emits the single-character token, appends a literal backslash to the buffer
and consumes the character after it directly, so the escape never happens. -/
theorem composite_lookahead_backslash_eval :
    scanLine ['<', '\\', 'a'] = .ok ⟨0, [Token.LeftAngle, Token.String "\\a"]⟩ ∧
    scanLine ['<', '\\', 'a'] ≠ .ok ⟨0, [Token.LeftAngle, Token.String "a"]⟩ := by
  have h : scanLine ['<', '\\', 'a'] = .ok ⟨0, [Token.LeftAngle, Token.String "\\a"]⟩ := by
    simp [scanLine, scanTrimmed, trimEndList, wsLoop, scanGo, flushBuf, classify, isWs,
      Char.isWhitespace, List.dropWhile, String.mk]
  refine ⟨h, ?_⟩
  rw [h]
  decide

/-- C5 (code evaluation at the failing inputs): a backslash seen as the
lookahead character after an equals sign is appended to the buffer as a
literal backslash; the character after it is processed normally (here a
second equals sign becomes a token instead of being escaped), and a
backslash lookahead at end-of-line yields a literal-backslash token instead
of the unexpected-end-of-line error. -/
theorem escape_after_operator_eval :
    scanLine ['=', '\\', '='] =
      .ok ⟨0, [Token.Equals, Token.String "\\", Token.Equals]⟩ ∧
    scanLine ['=', '\\'] = .ok ⟨0, [Token.Equals, Token.String "\\"]⟩ := by
  constructor <;>
    simp [scanLine, scanTrimmed, trimEndList, wsLoop, scanGo, flushBuf, classify, isWs,
      Char.isWhitespace, List.dropWhile, String.mk]

end Nox

namespace Nox

theorem trimEndList_rdrop (cs : List Char) :
    trimEndList cs = List.rdropWhile isWs cs := rfl

theorem trimEndList_eq_nil_iff {cs : List Char} :
    trimEndList cs = [] ↔ ∀ c ∈ cs, isWs c = true := by
  rw [trimEndList_rdrop]
  exact List.rdropWhile_eq_nil_iff

theorem trimEndList_append_cons {xs ys : List Char} {c : Char} (h : isWs c = false) :
    trimEndList (xs ++ c :: ys) = xs ++ c :: trimEndList ys := by
  unfold trimEndList
  rw [List.reverse_append, List.reverse_cons, List.append_assoc, List.singleton_append,
    List.dropWhile_append]
  split
  · rename_i hemp
    have h0 : List.dropWhile isWs ys.reverse = [] := by simpa using hemp
    rw [List.dropWhile_cons, if_neg (by simp [h]), List.reverse_cons, List.reverse_reverse, h0]
    simp
  · rw [List.reverse_append, List.reverse_cons, List.reverse_reverse]
    simp

theorem takeWhile_trimEnd (cs : List Char) (h : trimEndList cs ≠ []) :
    (trimEndList cs).takeWhile isWs = cs.takeWhile isWs := by
  rw [trimEndList_rdrop] at h ⊢
  obtain ⟨S, hS⟩ := List.rdropWhile_prefix isWs cs
  conv_rhs => rw [← hS]
  rw [List.takeWhile_append]
  split
  · rename_i hlen
    exfalso
    have heq : (List.rdropWhile isWs cs).takeWhile isWs = List.rdropWhile isWs cs :=
      (List.takeWhile_prefix isWs).eq_of_length hlen
    have hall : ∀ x ∈ List.rdropWhile isWs cs, isWs x = true := by
      intro x hx
      exact List.mem_takeWhile_imp (by rw [heq]; exact hx)
    have hlast := List.rdropWhile_last_not isWs cs h
    exact hlast (hall _ (List.getLast_mem h))
  · rfl

theorem wsLoop_not_ws {wsChar c : Char} {r : List Char} {cnt : Nat}
    (h : isWs c = false) : wsLoop wsChar (c :: r) cnt = .ok (cnt, c :: r) := by
  simp [wsLoop, h]

theorem wsLoop_step {wsChar : Char} (hw : isWs wsChar = true) (r : List Char)
    (cnt : Nat) : wsLoop wsChar (wsChar :: r) cnt = wsLoop wsChar r ((cnt + 1) % 256) := by
  simp [wsLoop, hw]

theorem wsLoop_replicate {wsChar c0 : Char} (hw : isWs wsChar = true)
    (h0 : isWs c0 = false) (rest : List Char) :
    ∀ (n cnt : Nat), ∃ lead,
      wsLoop wsChar (List.replicate n wsChar ++ c0 :: rest) cnt = .ok (lead, c0 :: rest) := by
  intro n
  induction n with
  | zero => intro cnt; exact ⟨cnt, by simpa using wsLoop_not_ws h0⟩
  | succ n ih =>
    intro cnt
    obtain ⟨lead, hl⟩ := ih ((cnt + 1) % 256)
    exact ⟨lead, by rw [List.replicate_succ, List.cons_append, wsLoop_step hw, hl]⟩

theorem wsLoop_replicate_bounded {wsChar c0 : Char} (hw : isWs wsChar = true)
    (h0 : isWs c0 = false) (rest : List Char) :
    ∀ (n cnt : Nat), cnt + n ≤ 255 →
      wsLoop wsChar (List.replicate n wsChar ++ c0 :: rest) cnt = .ok (cnt + n, c0 :: rest) := by
  intro n
  induction n with
  | zero => intro cnt _; simpa using wsLoop_not_ws h0
  | succ n ih =>
    intro cnt hb
    have hmod : (cnt + 1) % 256 = cnt + 1 := Nat.mod_eq_of_lt (by omega)
    have h2 := ih (cnt + 1) (by omega)
    have harr : cnt + 1 + n = cnt + (n + 1) := by omega
    rw [harr] at h2
    rw [List.replicate_succ, List.cons_append, wsLoop_step hw, hmod]
    exact h2

theorem wsLoop_ok_count : ∀ (cs : List Char) (wsChar : Char) (cnt lead : Nat)
    (rem : List Char), wsLoop wsChar cs cnt = .ok (lead, rem) →
    cnt + (cs.takeWhile isWs).length ≤ 255 →
    lead = cnt + (cs.takeWhile isWs).length ∧ rem = cs.dropWhile isWs := by
  intro cs
  induction cs with
  | nil => intro wsChar cnt lead rem h _; simp [wsLoop] at h
  | cons c r ih =>
    intro wsChar cnt lead rem h hb
    cases hc : isWs c with
    | false =>
      rw [wsLoop_not_ws hc] at h
      simp only [Except.ok.injEq, Prod.mk.injEq] at h
      obtain ⟨h1, h2⟩ := h
      simp [List.takeWhile_cons, List.dropWhile_cons, hc, ← h1, ← h2]
    | true =>
      simp only [wsLoop, hc, if_true] at h
      split at h
      · cases h
      · rename_i hwc
        simp only [List.takeWhile_cons, List.dropWhile_cons, hc, if_true, List.length_cons] at hb ⊢
        have hmod : (cnt + 1) % 256 = cnt + 1 := Nat.mod_eq_of_lt (by omega)
        rw [hmod] at h
        obtain ⟨h1, h2⟩ := ih wsChar (cnt + 1) lead rem h (by omega)
        exact ⟨by omega, h2⟩

theorem scanTrimmed_cons (c : Char) (rest : List Char) :
    scanTrimmed (c :: rest) =
      match wsLoop c (c :: rest) 0 with
      | .error e => .error e
      | .ok (lead, remaining) =>
        match scanGo none true remaining [] [] with
        | .error e => .error e
        | .ok [] => .error .NoTokensPresent
        | .ok (t :: ts) => .ok ⟨lead, t :: ts⟩ := rfl

theorem scanLine_ok_members {cs : List Char} {l : TokenLine}
    (h : scanLine cs = .ok l) : l.members ≠ [] := by
  unfold scanLine scanTrimmed at h
  split at h
  · cases h
  · split at h
    · cases h
    · split at h
      · cases h
      · cases h
      · cases h
        simp

theorem scanLine_all_ws {w : List Char} (h : ∀ c ∈ w, isWs c = true) :
    scanLine w = .error .NoTokensPresent := by
  have ht : trimEndList w = [] := trimEndList_eq_nil_iff.mpr h
  unfold scanLine
  rw [ht]
  rfl

theorem scanGo_comment (r : List Char) :
    scanGo none true ('#' :: r) [] [] = .ok ([] : List Token) := by
  rw [scanGo_none_cons]
  simp [isWs, Char.isWhitespace, classify, flushBuf]

theorem scanLine_ws_comment {wc : Char} (hw : isWs wc = true) (n : Nat)
    (c : List Char) :
    scanLine (List.replicate n wc ++ '#' :: c) = .error .NoTokensPresent := by
  have htrim := @trimEndList_append_cons (List.replicate n wc) c '#' (by decide)
  unfold scanLine
  rw [htrim]
  cases n with
  | zero =>
    simp [scanTrimmed, wsLoop_not_ws (show isWs '#' = false by decide), scanGo_comment]
  | succ m =>
    obtain ⟨lead, hl⟩ := wsLoop_replicate hw (show isWs '#' = false by decide)
      (trimEndList c) (m + 1) 0
    rw [List.replicate_succ, List.cons_append] at hl ⊢
    simp [scanTrimmed, hl, scanGo_comment]

/-- C3 (counterexample): an input consisting only of whitespace and a
comment does not always yield NoTokensPresent: with a mixed leading
whitespace run the scanner fails with InconsistentWhitespace instead. -/
theorem whitespace_comment_counterexample :
    TokenLine.tryFrom " \t# c" = .error .InconsistentWhitespace ∧
    TokenLine.tryFrom " \t# c" ≠ .error .NoTokensPresent := by
  have h : TokenLine.tryFrom " \t# c" = .error .InconsistentWhitespace := by
    show scanLine [' ', '\t', '#', ' ', 'c'] = _
    simp [scanLine, scanTrimmed, trimEndList, wsLoop, scanGo, flushBuf, classify,
      isWs, Char.isWhitespace, List.dropWhile]
  refine ⟨h, ?_⟩
  rw [h]
  decide

/-- C3 (amended): a successful scan never returns a line with an empty
member list; an input that is only whitespace, or a single-character
consistent whitespace run followed by a comment, yields NoTokensPresent
(a mixed whitespace run before a comment yields InconsistentWhitespace
instead); in particular converting the line "# This line should be empty."
to an expression line fails with NoTokensPresent. -/
theorem no_empty_members_spec :
    (∀ (s : String) (l : TokenLine), TokenLine.tryFrom s = .ok l → l.members ≠ []) ∧
    (∀ (s : String), (∀ c ∈ s.data, isWs c = true) →
      TokenLine.tryFrom s = .error .NoTokensPresent) ∧
    (∀ (wc : Char), isWs wc = true → ∀ (n : Nat) (c : List Char),
      scanLine (List.replicate n wc ++ '#' :: c) = .error .NoTokensPresent) ∧
    ExprLine.tryFromStr "# This line should be empty." =
      .error (.TokenFailure .NoTokensPresent) := by
  have hcomment : TokenLine.tryFrom "# This line should be empty." =
      .error .NoTokensPresent := by
    unfold TokenLine.tryFrom
    rw [show ("# This line should be empty.".data) =
      '#' :: (" This line should be empty.".data) from rfl]
    have := @scanLine_ws_comment ' ' (by decide) 0
      (" This line should be empty.".data)
    simpa using this
  refine ⟨fun s l h => scanLine_ok_members h,
    fun s h => scanLine_all_ws h,
    fun wc hw n c => scanLine_ws_comment hw n c, ?_⟩
  unfold ExprLine.tryFromStr
  rw [hcomment]

theorem no_empty_members_spec_witness :
    (⟨0, [Token.Colon]⟩ : TokenLine).members ≠ [] ∧
    TokenLine.tryFrom " " = .error .NoTokensPresent ∧
    scanLine (List.replicate 2 ' ' ++ '#' :: ['x']) = .error .NoTokensPresent :=
  ⟨no_empty_members_spec.1 ":" ⟨0, [Token.Colon]⟩ (by
      show scanLine [':'] = _
      simp [scanLine, scanTrimmed, trimEndList, wsLoop, scanGo, flushBuf, classify,
        isWs, Char.isWhitespace, List.dropWhile]),
    no_empty_members_spec.2.1 " " (by decide),
    no_empty_members_spec.2.2.1 ' ' (by decide) 2 ['x']⟩

/-- C10: when the leading whitespace run of the input has length at most
255, the scanner's 8-bit counter never overflows: on success the returned
line's `total_whitespace` equals the length of that run (and in particular
stays at most 255). -/
theorem leading_whitespace_counter (s : String) (l : TokenLine)
    (hrun : leadingWsRun s.data ≤ 255) (h : TokenLine.tryFrom s = .ok l) :
    l.total_whitespace = leadingWsRun s.data ∧ l.total_whitespace ≤ 255 := by
  unfold TokenLine.tryFrom scanLine at h
  cases htr : trimEndList s.data with
  | nil => rw [htr] at h; cases h
  | cons c rest =>
    rw [htr] at h
    have hne : trimEndList s.data ≠ [] := by rw [htr]; simp
    have htk : (c :: rest).takeWhile isWs = s.data.takeWhile isWs := by
      have := takeWhile_trimEnd s.data hne
      rwa [htr] at this
    have hbound : 0 + ((c :: rest).takeWhile isWs).length ≤ 255 := by
      rw [htk]
      simpa [leadingWsRun] using hrun
    rw [scanTrimmed_cons] at h
    cases hws : wsLoop c (c :: rest) 0 with
    | error e => simp only [hws] at h; cases h
    | ok p =>
      obtain ⟨lead, remaining⟩ := p
      simp only [hws] at h
      obtain ⟨hlead, _⟩ := wsLoop_ok_count (c :: rest) c 0 lead remaining hws hbound
      cases hsc : scanGo none true remaining [] [] with
      | error e => simp only [hsc] at h; cases h
      | ok toks =>
        simp only [hsc] at h
        cases toks with
        | nil => simp at h
        | cons t ts =>
          cases h
          have hlen : ((c :: rest).takeWhile isWs).length = leadingWsRun s.data := by
            rw [htk]; rfl
          constructor
          · show lead = leadingWsRun s.data
            omega
          · show lead ≤ 255
            omega

theorem leading_whitespace_counter_witness :
    (⟨2, [Token.String "a"]⟩ : TokenLine).total_whitespace =
      leadingWsRun "  a".data ∧
    (⟨2, [Token.String "a"]⟩ : TokenLine).total_whitespace ≤ 255 :=
  leading_whitespace_counter "  a" ⟨2, [Token.String "a"]⟩ (by decide) (by
    show scanLine [' ', ' ', 'a'] = _
    simp [scanLine, scanTrimmed, trimEndList, wsLoop, scanGo, flushBuf, classify,
      isWs, Char.isWhitespace, List.dropWhile, String.mk])

end Nox

namespace Nox

theorem trimEndList_nil : trimEndList [] = [] := rfl

theorem scanTrimmed_not_ws_head {c : Char} (rest : List Char) (h : isWs c = false) :
    scanTrimmed (c :: rest) =
      match scanGo none true (c :: rest) [] [] with
      | .error e => .error e
      | .ok [] => .error .NoTokensPresent
      | .ok (t :: ts) => .ok ⟨0, t :: ts⟩ := by
  rw [scanTrimmed_cons, wsLoop_not_ws h]

/-- C8: an opening quote does not delimit the token under construction:
quoted content is appended to the same buffer as the adjacent unquoted
plain characters, so a quoted segment abutting unquoted text produces a
single String token. -/
theorem quote_abuts_single_token (u v w : List Char)
    (hu : ∀ c ∈ u, isPlain c = true)
    (hv : ∀ x ∈ v, x ≠ '"' ∧ x ≠ '\\')
    (hw : ∀ c ∈ w, isPlain c = true)
    (hne : u ++ v ++ w ≠ []) :
    scanLine (u ++ '"' :: (v ++ '"' :: w)) =
      .ok ⟨0, [Token.String (String.mk (u ++ v ++ w))]⟩ := by
  have htrim : trimEndList (u ++ '"' :: (v ++ '"' :: w)) = u ++ '"' :: (v ++ '"' :: w) := by
    rcases List.eq_nil_or_concat w with rfl | ⟨W, b, hwb⟩
    · rw [show u ++ '"' :: (v ++ '"' :: []) = (u ++ '"' :: v) ++ '"' :: [] from by simp,
        trimEndList_append_cons (by decide)]
      simp [trimEndList_nil]
    · rw [List.concat_eq_append] at hwb
      subst hwb
      rw [show u ++ '"' :: (v ++ '"' :: (W ++ [b])) =
        (u ++ '"' :: (v ++ '"' :: W)) ++ b :: [] from by simp,
        trimEndList_append_cons (isPlain_not_ws (hw b (by simp)))]
      simp [trimEndList_nil]
  have hscan : scanGo none true (u ++ '"' :: (v ++ '"' :: w)) [] [] =
      .ok [Token.String (String.mk (u ++ v ++ w))] := by
    rw [scan_plain_run u hu ('"' :: (v ++ '"' :: w)) [] [], List.nil_append,
      scanGo_none_cons]
    rw [show classify '"' = CharClass.quote from by decide]
    rw [show (true && isWs '"') = false from by decide]
    simp only [Bool.false_eq_true, if_false]
    rw [scan_quote_run '"' v hv true w u []]
    have hw2 := scan_plain_run w hw [] (u ++ v) []
    rw [List.append_nil] at hw2
    rw [hw2, scanGo.eq_4, flushBuf_ne_nil (by simpa [List.append_assoc] using hne)]
    simp
  obtain ⟨c0, rest0, hcons, hc0⟩ : ∃ c0 rest0,
      u ++ '"' :: (v ++ '"' :: w) = c0 :: rest0 ∧ isWs c0 = false := by
    cases u with
    | nil => exact ⟨'"', v ++ '"' :: w, rfl, by decide⟩
    | cons a u2 =>
      exact ⟨a, u2 ++ '"' :: (v ++ '"' :: w), rfl, isPlain_not_ws (hu a (by simp))⟩
  unfold scanLine
  rw [htrim, hcons, scanTrimmed_not_ws_head rest0 hc0, ← hcons, hscan]

theorem quote_abuts_single_token_witness :
    scanLine (['a'] ++ '"' :: (['b', ' ', 'c'] ++ '"' :: ['d'])) =
      .ok ⟨0, [Token.String (String.mk (['a'] ++ ['b', ' ', 'c'] ++ ['d']))]⟩ :=
  quote_abuts_single_token ['a'] ['b', ' ', 'c'] ['d']
    (by decide) (by decide) (by decide) (by decide)

end Nox

namespace Nox

theorem goodTok_chars_head {t : Token} (h : GoodTok t) :
    ∃ c0 cr, Token.chars t = c0 :: cr ∧ isWs c0 = false := by
  cases t with
  | String s =>
    obtain ⟨h1, h2⟩ := h
    cases hs : s.data with
    | nil => exact absurd hs h1
    | cons c0 cr =>
      exact ⟨c0, cr, by simp [Token.chars, hs],
        isPlain_not_ws (h2 c0 (by rw [hs]; simp))⟩
  | Equals => exact ⟨'=', [], rfl, by decide⟩
  | LeftAngle => exact ⟨'<', [], rfl, by decide⟩
  | RightAngle => exact ⟨'>', [], rfl, by decide⟩
  | Bang => exact ⟨'!', [], rfl, by decide⟩
  | Period => exact ⟨'.', [], rfl, by decide⟩
  | Colon => exact ⟨':', [], rfl, by decide⟩
  | Dollar => exact ⟨'$', [], rfl, by decide⟩
  | Relational op => cases op <;> exact ⟨_, _, rfl, by decide⟩
  | Arithmetic op => cases op <;> exact ⟨_, _, rfl, by decide⟩

theorem goodTok_chars_last {t : Token} (h : GoodTok t) :
    ∃ ys a, Token.chars t = ys ++ [a] ∧ isWs a = false := by
  cases t with
  | String s =>
    obtain ⟨h1, h2⟩ := h
    rcases List.eq_nil_or_concat s.data with hnil | ⟨ys, a, hs⟩
    · exact absurd hnil h1
    · rw [List.concat_eq_append] at hs
      exact ⟨ys, a, by simp [Token.chars, hs],
        isPlain_not_ws (h2 a (by rw [hs]; simp))⟩
  | Equals => exact ⟨[], '=', rfl, by decide⟩
  | LeftAngle => exact ⟨[], '<', rfl, by decide⟩
  | RightAngle => exact ⟨[], '>', rfl, by decide⟩
  | Bang => exact ⟨[], '!', rfl, by decide⟩
  | Period => exact ⟨[], '.', rfl, by decide⟩
  | Colon => exact ⟨[], ':', rfl, by decide⟩
  | Dollar => exact ⟨[], '$', rfl, by decide⟩
  | Relational op =>
    cases op with
    | EqualTo => exact ⟨['='], '=', rfl, by decide⟩
    | GreaterThanEqual => exact ⟨['>'], '=', rfl, by decide⟩
    | LessThanEqual => exact ⟨['<'], '=', rfl, by decide⟩
    | NotEqual => exact ⟨['!'], '=', rfl, by decide⟩
  | Arithmetic op => cases op <;> exact ⟨[], _, rfl, by decide⟩

theorem scan_token_eol {t : Token} (h : GoodTok t) (acc : List Token) :
    scanGo none true (Token.chars t) [] acc = .ok (acc ++ [t]) := by
  cases t with
  | String s =>
    obtain ⟨h1, h2⟩ := h
    have hrun := scan_plain_run s.data h2 [] [] acc
    rw [List.append_nil] at hrun
    rw [show Token.chars (Token.String s) = s.data from rfl, hrun, List.nil_append,
      scanGo.eq_4, flushBuf_ne_nil h1, stringMk_data]
  | Equals =>
    simp [Token.chars, scanGo_none_cons, classify, isWs, Char.isWhitespace, flushBuf]
  | LeftAngle =>
    simp [Token.chars, scanGo_none_cons, classify, isWs, Char.isWhitespace, flushBuf]
  | RightAngle =>
    simp [Token.chars, scanGo_none_cons, classify, isWs, Char.isWhitespace, flushBuf]
  | Bang =>
    simp [Token.chars, scanGo_none_cons, classify, isWs, Char.isWhitespace, flushBuf]
  | Period =>
    simp [Token.chars, scanGo_none_cons, scanGo.eq_4, classify, isWs, Char.isWhitespace,
      flushBuf]
  | Colon =>
    simp [Token.chars, scanGo_none_cons, scanGo.eq_4, classify, isWs, Char.isWhitespace,
      flushBuf]
  | Dollar =>
    simp [Token.chars, scanGo_none_cons, scanGo.eq_4, classify, isWs, Char.isWhitespace,
      flushBuf]
  | Relational op =>
    cases op <;>
      simp [Token.chars, CompositeRelationalOperator.toRelational,
        RelationalOperator.chars, scanGo_none_cons, scanGo.eq_4, classify, isWs,
        Char.isWhitespace, flushBuf]
  | Arithmetic op =>
    cases op <;>
      simp [Token.chars, ArithmeticOperator.chars, scanGo_none_cons, scanGo.eq_4,
        classify, isWs, Char.isWhitespace, flushBuf]

theorem scan_token_sp {t : Token} (h : GoodTok t) (tl : List Char) (acc : List Token) :
    scanGo none true (Token.chars t ++ ' ' :: tl) [] acc =
      scanGo none false tl [] (acc ++ [t]) := by
  cases t with
  | String s =>
    obtain ⟨h1, h2⟩ := h
    rw [show Token.chars (Token.String s) = s.data from rfl,
      scan_plain_run s.data h2 (' ' :: tl) [] acc, List.nil_append, scanGo_none_cons]
    rw [show (true && isWs ' ') = true from by decide]
    simp only [if_true]
    rw [flushBuf_ne_nil h1, stringMk_data]
  | Equals =>
    simp [Token.chars, scanGo_none_cons, classify, isWs, Char.isWhitespace, flushBuf]
  | LeftAngle =>
    simp [Token.chars, scanGo_none_cons, classify, isWs, Char.isWhitespace, flushBuf]
  | RightAngle =>
    simp [Token.chars, scanGo_none_cons, classify, isWs, Char.isWhitespace, flushBuf]
  | Bang =>
    simp [Token.chars, scanGo_none_cons, classify, isWs, Char.isWhitespace, flushBuf]
  | Period =>
    simp [Token.chars, scanGo_none_cons, classify, isWs, Char.isWhitespace, flushBuf]
  | Colon =>
    simp [Token.chars, scanGo_none_cons, classify, isWs, Char.isWhitespace, flushBuf]
  | Dollar =>
    simp [Token.chars, scanGo_none_cons, classify, isWs, Char.isWhitespace, flushBuf]
  | Relational op =>
    cases op <;>
      simp [Token.chars, CompositeRelationalOperator.toRelational,
        RelationalOperator.chars, scanGo_none_cons, classify, isWs, Char.isWhitespace,
        flushBuf]
  | Arithmetic op =>
    cases op <;>
      simp [Token.chars, ArithmeticOperator.chars, scanGo_none_cons, classify, isWs,
        Char.isWhitespace, flushBuf]

theorem joinSpace_good_head (u : Token) (ms : List Token) (hu : GoodTok u) :
    ∃ c0 jr, joinSpace ((u :: ms).map Token.chars) = c0 :: jr ∧ isWs c0 = false := by
  obtain ⟨c0, cr, hcu, hws⟩ := goodTok_chars_head hu
  cases ms with
  | nil => exact ⟨c0, cr, by simp [joinSpace, hcu], hws⟩
  | cons m ms2 =>
    refine ⟨c0, cr ++ ' ' :: joinSpace ((m :: ms2).map Token.chars), ?_, hws⟩
    rw [List.map_cons,
      show joinSpace (Token.chars u :: (m :: ms2).map Token.chars) =
        Token.chars u ++ ' ' :: joinSpace ((m :: ms2).map Token.chars) from by
          rw [List.map_cons]; rfl,
      hcu, List.cons_append]

theorem joinSpace_good_last : ∀ (ms : List Token), ms ≠ [] → (∀ t ∈ ms, GoodTok t) →
    ∃ ys a, joinSpace (ms.map Token.chars) = ys ++ [a] ∧ isWs a = false := by
  intro ms
  induction ms with
  | nil => intro h; exact absurd rfl h
  | cons t ms2 ih =>
    intro _ hgood
    cases ms2 with
    | nil =>
      obtain ⟨ys, a, hy, ha⟩ := goodTok_chars_last (hgood t (by simp))
      exact ⟨ys, a, by simpa [joinSpace] using hy, ha⟩
    | cons u ms3 =>
      obtain ⟨ys, a, hy, ha⟩ := ih (by simp) (fun x hx => hgood x (by simp [hx]))
      refine ⟨Token.chars t ++ ' ' :: ys, a, ?_, ha⟩
      rw [List.map_cons,
        show joinSpace (Token.chars t :: (u :: ms3).map Token.chars) =
          Token.chars t ++ ' ' :: joinSpace ((u :: ms3).map Token.chars) from by
            rw [List.map_cons]; rfl,
        hy]
      simp

theorem scan_members : ∀ (ms : List Token), ms ≠ [] → (∀ t ∈ ms, GoodTok t) →
    ∀ acc, scanGo none true (joinSpace (ms.map Token.chars)) [] acc = .ok (acc ++ ms) := by
  intro ms
  induction ms with
  | nil => intro h; exact absurd rfl h
  | cons t ms2 ih =>
    intro _ hgood acc
    have ht := hgood t (by simp)
    cases ms2 with
    | nil =>
      rw [show joinSpace (([t] : List Token).map Token.chars) = Token.chars t from rfl]
      exact scan_token_eol ht acc
    | cons u ms3 =>
      rw [show joinSpace ((t :: u :: ms3).map Token.chars) =
        Token.chars t ++ ' ' :: joinSpace ((u :: ms3).map Token.chars) from by
          rw [List.map_cons, List.map_cons]; rfl]
      rw [scan_token_sp ht]
      obtain ⟨c0, jr, hJ, hc0⟩ := joinSpace_good_head u ms3 (hgood u (by simp))
      rw [hJ, scanGo_skip hc0, ← hJ,
        ih (by simp) (fun x hx => hgood x (by simp [hx])) (acc ++ [t])]
      simp

theorem trim_render {l : TokenLine} (h : goodLine l) :
    trimEndList (Line.renderChars l) = Line.renderChars l := by
  obtain ⟨hws, hne, hgood⟩ := h
  obtain ⟨ys, a, hy, ha⟩ := joinSpace_good_last l.members hne hgood
  unfold Line.renderChars
  rw [hy,
    show List.replicate l.total_whitespace ' ' ++ (ys ++ [a]) =
      (List.replicate l.total_whitespace ' ' ++ ys) ++ a :: [] from by simp,
    trimEndList_append_cons ha]
  simp [trimEndList_nil]

/-- C4 (counterexample): re-scanning the rendered form of a scanned token
stream does not always reproduce it: scanning the three characters
quote-colon-quote yields the single token String(":"), which renders as a
bare colon and re-scans as the Colon token.  The input involves no
inter-token whitespace at all. -/
theorem render_rescan_counterexample :
    TokenLine.tryFrom "\":\"" = .ok ⟨0, [Token.String ":"]⟩ ∧
    TokenLine.tryFrom (Line.render ⟨0, [Token.String ":"]⟩) = .ok ⟨0, [Token.Colon]⟩ ∧
    (⟨0, [Token.Colon]⟩ : TokenLine) ≠ (⟨0, [Token.String ":"]⟩ : TokenLine) := by
  refine ⟨?_, ?_, by decide⟩
  · show scanLine ['"', ':', '"'] = _
    simp [scanLine, scanTrimmed, trimEndList, wsLoop, scanGo, flushBuf, classify, isWs,
      Char.isWhitespace, List.dropWhile, String.mk]
  · show scanLine [':'] = _
    simp [scanLine, scanTrimmed, trimEndList, wsLoop, scanGo, flushBuf, classify, isWs,
      Char.isWhitespace, List.dropWhile, String.mk]

/-- C4 (amended): rendering a token line (leading-whitespace spaces, then
the members' textual forms separated by single spaces) and re-scanning the
rendered text yields the line back, for every line whose leading-whitespace
count is at most 255, whose member list is non-empty, and whose String
members are non-empty and contain only plain characters (no whitespace, no
operator or comment or quote characters, no backslash); token streams whose
String payloads contain such characters re-scan differently. -/
theorem render_rescan (l : TokenLine) (h : goodLine l) :
    TokenLine.tryFrom (Line.render l) = .ok l := by
  obtain ⟨tw, mem⟩ := l
  obtain ⟨hwsle, hne, hgood⟩ := h
  simp only at hwsle hne hgood
  obtain ⟨t0, ms0, hms⟩ : ∃ t0 ms0, mem = t0 :: ms0 := by
    cases hm : mem with
    | nil => exact absurd hm hne
    | cons a b => exact ⟨a, b, rfl⟩
  obtain ⟨c0, jr, hJ, hc0⟩ := joinSpace_good_head t0 ms0
    (hgood t0 (by rw [hms]; simp))
  have hscan : scanGo none true (joinSpace (mem.map Token.chars)) [] [] =
      .ok mem := by
    have := scan_members mem hne hgood []
    simpa using this
  unfold TokenLine.tryFrom
  rw [show (Line.render ⟨tw, mem⟩).data = Line.renderChars ⟨tw, mem⟩ from rfl]
  unfold scanLine
  rw [trim_render ⟨hwsle, hne, hgood⟩]
  rw [← hms] at hJ
  cases tw with
  | zero =>
    rw [show Line.renderChars ⟨0, mem⟩ = joinSpace (mem.map Token.chars) from by
      simp [Line.renderChars]]
    rw [hJ, scanTrimmed_not_ws_head jr hc0]
    rw [hms] at hscan
    simp only [← hJ, hms, hscan]
  | succ n =>
    rw [show Line.renderChars ⟨n + 1, mem⟩ =
      List.replicate (n + 1) ' ' ++ joinSpace (mem.map Token.chars) from rfl]
    rw [hJ, List.replicate_succ, List.cons_append, scanTrimmed_cons]
    have hwl := @wsLoop_replicate_bounded ' ' c0 (by decide) hc0 jr (n + 1) 0 (by omega)
    rw [List.replicate_succ, List.cons_append] at hwl
    simp only [hwl, Nat.zero_add]
    rw [hms] at hscan
    simp only [← hJ, hms, hscan]

theorem render_rescan_witness :
    goodLine ⟨2, [Token.String "rect", Token.Relational .EqualTo, Token.Colon]⟩ ∧
    TokenLine.tryFrom
        (Line.render ⟨2, [Token.String "rect", Token.Relational .EqualTo, Token.Colon]⟩) =
      .ok ⟨2, [Token.String "rect", Token.Relational .EqualTo, Token.Colon]⟩ :=
  ⟨by decide,
    render_rescan ⟨2, [Token.String "rect", Token.Relational .EqualTo, Token.Colon]⟩
      (by decide)⟩

end Nox

namespace Nox

theorem literalCloses_cons (q c : Char) (r : List Char) :
    literalCloses q (c :: r) =
      if c = q then true
      else if c = '\\' then
        match r with
        | [] => false
        | _ :: r2 => literalCloses q r2
      else literalCloses q r := by
  cases r <;> rfl

theorem literalPartial_cons (q c : Char) (r : List Char) :
    literalPartial q (c :: r) =
      if c = q then []
      else if c = '\\' then
        match r with
        | [] => []
        | d :: r2 => d :: literalPartial q r2
      else c :: literalPartial q r := by
  cases r <;> rfl

theorem collectStringLiteral_cons (q c : Char) (r content : List Char) :
    collectStringLiteral q (c :: r) content =
      if c = q then .ok (String.mk content, r)
      else if c = '\\' then
        match r with
        | [] => .error (.UnterminatedStringLiteral (String.mk content))
        | d :: r2 => collectStringLiteral q r2 (content ++ [d])
      else collectStringLiteral q r (content ++ [c]) := by
  cases r <;> rfl

theorem collect_no_close (q : Char) :
    ∀ (n : Nat) (cs content : List Char), cs.length ≤ n →
    literalCloses q cs = false →
    collectStringLiteral q cs content =
      .error (.UnterminatedStringLiteral (String.mk (content ++ literalPartial q cs))) := by
  intro n
  induction n with
  | zero =>
    intro cs content hlen _
    have : cs = [] := List.eq_nil_of_length_eq_zero (Nat.le_zero.mp hlen)
    subst this
    simp [collectStringLiteral, literalPartial]
  | succ n ih =>
    intro cs content hlen hnc
    cases cs with
    | nil => simp [collectStringLiteral, literalPartial]
    | cons c r =>
      by_cases hq : c = q
      · rw [literalCloses_cons, if_pos hq] at hnc
        cases hnc
      · by_cases hb : c = '\\'
        · subst hb
          cases r with
          | nil =>
            rw [collectStringLiteral_cons, if_neg hq, literalPartial_cons, if_neg hq]
            simp
          | cons d r2 =>
            have hcl : literalCloses q r2 = false := by
              rw [literalCloses_cons, if_neg hq] at hnc
              simpa using hnc
            rw [collectStringLiteral_cons, if_neg hq, if_pos (rfl : ('\\' : Char) = '\\')]
            show collectStringLiteral q r2 (content ++ [d]) = _
            rw [ih r2 (content ++ [d]) (by simp at hlen ⊢; omega) hcl]
            rw [literalPartial_cons, if_neg hq]
            simp
        · have hcl : literalCloses q r = false := by
            rw [literalCloses_cons, if_neg hq, if_neg hb] at hnc
            exact hnc
          rw [collectStringLiteral_cons, if_neg hq, if_neg hb,
            ih r (content ++ [c]) (by simp at hlen ⊢; omega) hcl,
            literalPartial_cons, if_neg hq, if_neg hb]
          simp

/-- C6: for every line that opens a quoted string literal and reaches
end-of-input before a matching unescaped closing delimiter, the
(spec-modelled) lexer fails with the UnterminatedStringLiteral error
carrying the escape-decoded partial literal content; in particular the
content after the opening quote of the input consisting of a double quote
followed by abc yields UnterminatedStringLiteral("abc"). -/
theorem unterminated_literal_spec :
    (∀ (q : Char) (cs : List Char), (q = '"' ∨ q = '\'') →
      literalCloses q cs = false →
      collectStringLiteral q cs [] =
        .error (.UnterminatedStringLiteral (String.mk (literalPartial q cs)))) ∧
    collectStringLiteral '"' ['a', 'b', 'c'] [] =
      .error (.UnterminatedStringLiteral "abc") := by
  constructor
  · intro q cs _ hnc
    have := collect_no_close q cs.length cs [] le_rfl hnc
    simpa using this
  · decide

theorem unterminated_literal_spec_witness :
    collectStringLiteral '"' ['a', 'b', 'c'] [] =
      .error (.UnterminatedStringLiteral (String.mk (literalPartial '"' ['a', 'b', 'c']))) :=
  unterminated_literal_spec.1 '"' ['a', 'b', 'c'] (Or.inl rfl) (by decide)

end Nox
